import Mathlib

/-!
Verification of the dcrlnd wire-message and persistence codecs.

The development shallowly embeds two codec layers of the repository:

* the `lnwire` peer-message codec (message catalogue, framing, element
  encoding, feature vectors, network addresses, short channel ids), and
* the `channeldb` on-disk element codec (`src/channeldb/codec.go`).

Bytes are modelled as `Fin 256`; byte streams as `List Byte`; fallible
operations return `Except CodecErr`.  The `channeldb` definitions are
translated directly from `src/channeldb/codec.go`.  The `lnwire`
implementation files are not part of the provided sources (only their
test `src/lnwire/lnwire_test.go` is), so those definitions are modelled
from the specification, as marked in their doc comments.
-/

set_option maxRecDepth 16384

/-- A single octet. -/
abbrev Byte := Fin 256

/-- A byte string whose length is fixed at `n` (hashes, keys, signatures). -/
abbrev BytesN (n : Nat) := { l : List Byte // l.length = n }

/-- Error kinds of the codecs, mirroring the spec's error catalogue (§7)
and the error returns of `src/channeldb/codec.go`. -/
inductive CodecErr where
  | unsupportedElementType
  | maxLengthExceeded
  | invalidPublicKey
  | unknownAddressType
  | unknownMessageType
  | payloadTooLarge
  | truncatedMessage
  | nonCanonicalVarInt
  | outpointIndexTooLarge
  | extraneousBytes
  deriving DecidableEq, Repr

instance {ε α : Type} [DecidableEq ε] [DecidableEq α] : DecidableEq (Except ε α) := by
  intro x y
  cases x <;> cases y
  case error.error a b =>
    exact if h : a = b then .isTrue (by rw [h]) else .isFalse (by simpa using h)
  case error.ok a b => exact .isFalse (by simp)
  case ok.error a b => exact .isFalse (by simp)
  case ok.ok a b =>
    exact if h : a = b then .isTrue (by rw [h]) else .isFalse (by simpa using h)

/-- The `L` big-endian base-256 digits of `n` (most significant first),
i.e. the fixed-width network-byte-order encoding of an integer (§4.1). -/
def beBytes : Nat → Nat → List Byte
  | _, 0 => []
  | n, L + 1 => beBytes (n / 256) L ++ [⟨n % 256, Nat.mod_lt _ (by omega)⟩]

/-- The integer denoted by a big-endian byte string. -/
def beValue (bs : List Byte) : Nat :=
  bs.foldl (fun acc b => acc * 256 + b.val) 0

theorem beBytes_length (n L : Nat) : (beBytes n L).length = L := by
  induction L generalizing n with
  | zero => rfl
  | succ L ih => simp [beBytes, ih]

theorem beValue_snoc (xs : List Byte) (b : Byte) :
    beValue (xs ++ [b]) = beValue xs * 256 + b.val := by
  simp [beValue, List.foldl_append]

theorem beValue_beBytes (n L : Nat) (h : n < 256 ^ L) :
    beValue (beBytes n L) = n := by
  induction L generalizing n with
  | zero =>
    have hn : n = 0 := by omega
    subst hn; rfl
  | succ L ih =>
    have hdiv : n / 256 < 256 ^ L := by
      have h2 : 256 ^ (L + 1) = 256 ^ L * 256 := by ring
      omega
    rw [beBytes, beValue_snoc, ih (n / 256) hdiv]
    show n / 256 * 256 + n % 256 = n
    omega

theorem beValue_lt (bs : List Byte) : beValue bs < 256 ^ bs.length := by
  induction bs using List.reverseRecOn with
  | nil => simp [beValue]
  | append_singleton xs b ih =>
    rw [beValue_snoc]
    have hb := b.isLt
    have : 256 ^ (xs ++ [b]).length = 256 ^ xs.length * 256 := by
      simp [List.length_append, pow_succ]
    omega

/-- Consume exactly `n` bytes from the head of a stream, failing with
`truncatedMessage` when fewer are available (the `io.ReadFull` pattern). -/
def readBytesN (n : Nat) (bs : List Byte) : Except CodecErr (BytesN n × List Byte) :=
  if h : n ≤ bs.length then
    .ok (⟨bs.take n, by simp [List.length_take]; omega⟩, bs.drop n)
  else
    .error .truncatedMessage

theorem readBytesN_append (n : Nat) (v : BytesN n) (rest : List Byte) :
    readBytesN n (v.val ++ rest) = .ok (v, rest) := by
  have hlen : v.val.length = n := v.property
  rw [readBytesN, dif_pos (by simp [hlen])]
  congr 1
  refine Prod.ext ?_ ?_
  · apply Subtype.ext
    show (v.val ++ rest).take n = v.val
    exact List.take_left' hlen
  · show (v.val ++ rest).drop n = rest
    exact List.drop_left' hlen

/-- Consume a fixed-width `w`-byte big-endian unsigned integer. -/
def readBeUint (w : Nat) (bs : List Byte) : Except CodecErr (Nat × List Byte) := do
  let (v, rest) ← readBytesN w bs
  .ok (beValue v.val, rest)

theorem readBeUint_append (w n : Nat) (h : n < 256 ^ w) (rest : List Byte) :
    readBeUint w (beBytes n w ++ rest) = .ok (n, rest) := by
  rw [readBeUint]
  rw [show beBytes n w ++ rest
      = (⟨beBytes n w, beBytes_length n w⟩ : BytesN w).val ++ rest from rfl]
  rw [readBytesN_append]
  show Except.ok (beValue (beBytes n w), rest) = _
  rw [beValue_beBytes n w h]

/-- The `L` little-endian base-256 digits of `n` (least significant first),
used by the compact variable-length integer convention (§4.1, §6). -/
def leBytes : Nat → Nat → List Byte
  | _, 0 => []
  | n, L + 1 => ⟨n % 256, Nat.mod_lt _ (by omega)⟩ :: leBytes (n / 256) L

/-- The integer denoted by a little-endian byte string. -/
def leValue : List Byte → Nat
  | [] => 0
  | b :: bs => b.val + 256 * leValue bs

theorem leBytes_length (n L : Nat) : (leBytes n L).length = L := by
  induction L generalizing n with
  | zero => rfl
  | succ L ih => simp [leBytes, ih]

theorem leValue_leBytes (n L : Nat) (h : n < 256 ^ L) :
    leValue (leBytes n L) = n := by
  induction L generalizing n with
  | zero =>
    have hn : n = 0 := by omega
    subst hn; rfl
  | succ L ih =>
    have hdiv : n / 256 < 256 ^ L := by
      have h2 : 256 ^ (L + 1) = 256 ^ L * 256 := by ring
      omega
    rw [leBytes, leValue, ih (n / 256) hdiv]
    show n % 256 + 256 * (n / 256) = n
    omega

/-- Consume a fixed-width `w`-byte little-endian unsigned integer. -/
def readLeUint (w : Nat) (bs : List Byte) : Except CodecErr (Nat × List Byte) := do
  let (v, rest) ← readBytesN w bs
  .ok (leValue v.val, rest)

theorem readLeUint_append (w n : Nat) (h : n < 256 ^ w) (rest : List Byte) :
    readLeUint w (leBytes n w ++ rest) = .ok (n, rest) := by
  rw [readLeUint]
  rw [show leBytes n w ++ rest
      = (⟨leBytes n w, leBytes_length n w⟩ : BytesN w).val ++ rest from rfl]
  rw [readBytesN_append]
  show Except.ok (leValue (leBytes n w), rest) = _
  rw [leValue_leBytes n w h]

/-- Modelled from the spec: the compact unsigned variable-length integer
used as the length prefix of variable-length byte strings (§4.1, §6); the
encoder (`wire.WriteVarInt` of the dcrd library, not under `src/`) picks the
shortest of four forms: one raw byte below `0xfd`, or a marker byte `0xfd`,
`0xfe`, `0xff` followed by a 2-, 4- or 8-byte little-endian payload. -/
def writeVarInt (n : Nat) : List Byte :=
  if h : n < 0xfd then [⟨n, by omega⟩]
  else if n < 0x10000 then ⟨0xfd, by omega⟩ :: leBytes n 2
  else if n < 0x100000000 then ⟨0xfe, by omega⟩ :: leBytes n 4
  else ⟨0xff, by omega⟩ :: leBytes n 8

/-- Modelled from the spec: decoding of the compact variable-length integer
(`wire.ReadVarInt` of the dcrd library, not under `src/`); a marker form whose
payload could have used a shorter form is rejected as non-canonical. -/
def readVarInt (bs : List Byte) : Except CodecErr (Nat × List Byte) :=
  match bs with
  | [] => .error .truncatedMessage
  | d :: rest =>
    if d.val < 0xfd then .ok (d.val, rest)
    else if d.val = 0xfd then do
      let (n, rest) ← readLeUint 2 rest
      if n < 0xfd then .error .nonCanonicalVarInt else .ok (n, rest)
    else if d.val = 0xfe then do
      let (n, rest) ← readLeUint 4 rest
      if n < 0x10000 then .error .nonCanonicalVarInt else .ok (n, rest)
    else do
      let (n, rest) ← readLeUint 8 rest
      if n < 0x100000000 then .error .nonCanonicalVarInt else .ok (n, rest)

theorem readVarInt_append (n : Nat) (h : n < 2 ^ 64) (rest : List Byte) :
    readVarInt (writeVarInt n ++ rest) = .ok (n, rest) := by
  rw [writeVarInt]
  by_cases h1 : n < 0xfd
  · rw [dif_pos h1]
    show readVarInt (⟨n, by omega⟩ :: rest) = _
    rw [readVarInt, if_pos h1]
  · rw [dif_neg h1]
    by_cases h2 : n < 0x10000
    · rw [if_pos h2]
      show readVarInt (⟨0xfd, by omega⟩ :: (leBytes n 2 ++ rest)) = _
      rw [readVarInt]
      rw [if_neg (by simp), if_pos (by simp)]
      rw [readLeUint_append 2 n (by omega) rest]
      show (if n < 0xfd then _ else Except.ok (n, rest)) = _
      rw [if_neg h1]
    · rw [if_neg h2]
      by_cases h3 : n < 0x100000000
      · rw [if_pos h3]
        show readVarInt (⟨0xfe, by omega⟩ :: (leBytes n 4 ++ rest)) = _
        rw [readVarInt]
        rw [if_neg (by simp), if_neg (by simp), if_pos (by simp)]
        rw [readLeUint_append 4 n (by omega) rest]
        show (if n < 0x10000 then _ else Except.ok (n, rest)) = _
        rw [if_neg h2]
      · rw [if_neg h3]
        show readVarInt (⟨0xff, by omega⟩ :: (leBytes n 8 ++ rest)) = _
        rw [readVarInt]
        rw [if_neg (by simp), if_neg (by simp), if_neg (by simp)]
        rw [readLeUint_append 8 n (by omega : n < 256 ^ 8) rest]
        show (if n < 0x100000000 then _ else Except.ok (n, rest)) = _
        rw [if_neg h3]

/-- Modelled from the spec: the sparse feature bit-set of §4.2 (`lnwire`'s
`RawFeatureVector`, whose source file is not under `src/`).  An ordered
mapping from bit index to boolean is represented as the natural number whose
binary bit `i` is the state of feature bit `i`; two vectors are equal iff
their set bits are identical, as §3 requires. -/
structure RawFeatureVector where
  bits : Nat
  deriving DecidableEq, Repr

namespace RawFeatureVector

/-- The empty feature vector (`NewRawFeatureVector`). -/
def empty : RawFeatureVector := ⟨0⟩

/-- Set feature bit `i` (§4.2 `set`). -/
def setBit (fv : RawFeatureVector) (i : Nat) : RawFeatureVector :=
  ⟨fv.bits ||| 2 ^ i⟩

/-- Clear feature bit `i` (§4.2 `unset`). -/
def unsetBit (fv : RawFeatureVector) (i : Nat) : RawFeatureVector :=
  ⟨if fv.bits.testBit i then fv.bits - 2 ^ i else fv.bits⟩

/-- Query feature bit `i` (§4.2 `is_set`). -/
def isSet (fv : RawFeatureVector) (i : Nat) : Bool :=
  fv.bits.testBit i

/-- The number of base-256 digits of `n`, computed with structural
recursion on a fuel argument so that it reduces by evaluation; the fuel is
always instantiated with `n` itself, which suffices because each step
divides by 256. -/
def byteLenAux : Nat → Nat → Nat
  | 0, _ => 0
  | fuel + 1, n => if n = 0 then 0 else byteLenAux fuel (n / 256) + 1

/-- The minimal whole-byte-aligned length covering the highest set bit of
`n`: zero when `n` is zero, else one more than the byte length of the
remaining high bits. -/
def byteLen (n : Nat) : Nat := byteLenAux n n

/-- Modelled from the spec: §4.2's `encoded_length`, the minimal
whole-byte-aligned length covering the highest set bit, zero for the
empty vector. -/
def serializeSize (fv : RawFeatureVector) : Nat :=
  byteLen fv.bits

/-- Modelled from the spec: the §4.2 encoding rule.  The vector is emitted
as `serializeSize` big-endian bytes, so that feature bit `i` is bit
`(length*8 - 1 - i)` counted from the most significant end, i.e. bit 0 is
the least significant bit of the last byte. -/
def encodeBytes (fv : RawFeatureVector) : List Byte :=
  beBytes fv.bits fv.serializeSize

/-- Modelled from the spec: §4.2 decoding, constructing a vector sized to
the input byte length and marking every bit present. -/
def decodeBytes (bs : List Byte) : RawFeatureVector :=
  ⟨beValue bs⟩

theorem byteLenAux_congr (f1 : Nat) : ∀ f2 n : Nat, n ≤ f1 → n ≤ f2 →
    byteLenAux f1 n = byteLenAux f2 n := by
  induction f1 with
  | zero =>
    intro f2 n h1 h2
    obtain rfl : n = 0 := by omega
    cases f2 <;> rfl
  | succ f1 ih =>
    intro f2 n h1 h2
    by_cases hn : n = 0
    · subst hn; cases f2 <;> rfl
    · obtain ⟨f2, rfl⟩ : ∃ f, f2 = f + 1 := by
        cases f2 with
        | zero => omega
        | succ f => exact ⟨f, rfl⟩
      rw [byteLenAux, byteLenAux, if_neg hn, if_neg hn]
      have hdiv : n / 256 < n := Nat.div_lt_self (by omega) (by omega)
      rw [ih f2 (n / 256) (by omega) (by omega)]

theorem byteLen_succ (n : Nat) (hn : n ≠ 0) :
    byteLen n = byteLen (n / 256) + 1 := by
  obtain ⟨m, rfl⟩ : ∃ m, n = m + 1 := by
    cases n with
    | zero => omega
    | succ m => exact ⟨m, rfl⟩
  rw [byteLen, byteLenAux, if_neg hn]
  have hdiv : (m + 1) / 256 < m + 1 := Nat.div_lt_self (by omega) (by omega)
  rw [byteLenAux_congr m ((m + 1) / 256) ((m + 1) / 256) (by omega) le_rfl]
  rfl

theorem lt_pow_byteLen (n : Nat) : n < 256 ^ byteLen n := by
  induction n using Nat.strong_induction_on with
  | _ n ih =>
    by_cases hn : n = 0
    · subst hn; decide
    · rw [byteLen_succ n hn]
      have hdiv : n / 256 < n := Nat.div_lt_self (by omega) (by omega)
      have hrec := ih (n / 256) hdiv
      have hpow : 256 ^ (byteLen (n / 256) + 1) = 256 ^ byteLen (n / 256) * 256 := by
        ring
      omega

theorem bits_lt_of_serializeSize (fv : RawFeatureVector) :
    fv.bits < 256 ^ fv.serializeSize :=
  lt_pow_byteLen fv.bits

theorem encodeBytes_length (fv : RawFeatureVector) :
    fv.encodeBytes.length = fv.serializeSize :=
  beBytes_length _ _

/-- Decoding the encoding of a feature vector restores exactly its set bits. -/
theorem decodeBytes_encodeBytes (fv : RawFeatureVector) :
    decodeBytes fv.encodeBytes = fv := by
  rw [decodeBytes, encodeBytes, beValue_beBytes _ _ fv.bits_lt_of_serializeSize]

end RawFeatureVector

/-- Modelled from the spec: the tagged union of the four network address
families of §4.4 (`lnwire`'s address handling is not under `src/`).  Each
variant carries its fixed-length host identifier and a 16-bit port; the
onion service identifiers are the 10- and 35-byte decoded forms referenced
by the test file via `tor.V2DecodedLen` and `tor.V3DecodedLen`. -/
inductive NetAddress where
  | ipv4 (ip : BytesN 4) (port : Fin 65536)
  | ipv6 (ip : BytesN 16) (port : Fin 65536)
  | onionV2 (service : BytesN 10) (port : Fin 65536)
  | onionV3 (service : BytesN 35) (port : Fin 65536)
  deriving DecidableEq

/-- Consume a 2-byte big-endian port. -/
def readPort (bs : List Byte) : Except CodecErr (Fin 65536 × List Byte) := do
  let (v, rest) ← readBytesN 2 bs
  .ok (⟨beValue v.val, by
    have h := beValue_lt v.val
    rw [v.property] at h
    exact h⟩, rest)

theorem readPort_append (p : Fin 65536) (rest : List Byte) :
    readPort (beBytes p.val 2 ++ rest) = .ok (p, rest) := by
  rw [readPort]
  rw [show beBytes p.val 2 ++ rest
      = (⟨beBytes p.val 2, beBytes_length _ _⟩ : BytesN 2).val ++ rest from rfl]
  rw [readBytesN_append]
  show Except.ok ((⟨beValue (beBytes p.val 2), _⟩ : Fin 65536), rest) = _
  congr 1
  refine Prod.ext ?_ rfl
  exact Fin.ext (beValue_beBytes p.val 2 p.isLt)

/-- Modelled from the spec: §4.4 address encoding, one discriminator byte
followed by the family payload and the 2-byte port. -/
def encodeAddr : NetAddress → List Byte
  | .ipv4 ip port => ⟨1, by omega⟩ :: (ip.val ++ beBytes port.val 2)
  | .ipv6 ip port => ⟨2, by omega⟩ :: (ip.val ++ beBytes port.val 2)
  | .onionV2 service port => ⟨3, by omega⟩ :: (service.val ++ beBytes port.val 2)
  | .onionV3 service port => ⟨4, by omega⟩ :: (service.val ++ beBytes port.val 2)

/-- Modelled from the spec: §4.4 address decoding, dispatching purely on the
discriminator byte and failing with `UnknownAddressType` for any other
value. -/
def decodeAddr : List Byte → Except CodecErr (NetAddress × List Byte)
  | [] => .error .truncatedMessage
  | d :: rest =>
    if d.val = 1 then do
      let (ip, rest) ← readBytesN 4 rest
      let (port, rest) ← readPort rest
      .ok (.ipv4 ip port, rest)
    else if d.val = 2 then do
      let (ip, rest) ← readBytesN 16 rest
      let (port, rest) ← readPort rest
      .ok (.ipv6 ip port, rest)
    else if d.val = 3 then do
      let (service, rest) ← readBytesN 10 rest
      let (port, rest) ← readPort rest
      .ok (.onionV2 service port, rest)
    else if d.val = 4 then do
      let (service, rest) ← readBytesN 35 rest
      let (port, rest) ← readPort rest
      .ok (.onionV3 service port, rest)
    else .error .unknownAddressType

theorem decodeAddr_encodeAddr (a : NetAddress) (rest : List Byte) :
    decodeAddr (encodeAddr a ++ rest) = .ok (a, rest) := by
  cases a with
  | ipv4 ip port =>
    show decodeAddr (⟨1, by omega⟩ :: (ip.val ++ beBytes port.val 2 ++ rest)) = _
    rw [decodeAddr, if_pos rfl, List.append_assoc, readBytesN_append]
    show (do
      let (port, rest) ← readPort (beBytes port.val 2 ++ rest)
      Except.ok (NetAddress.ipv4 ip port, rest)) = _
    rw [readPort_append]
    rfl
  | ipv6 ip port =>
    show decodeAddr (⟨2, by omega⟩ :: (ip.val ++ beBytes port.val 2 ++ rest)) = _
    rw [decodeAddr, if_neg (by simp), if_pos rfl, List.append_assoc, readBytesN_append]
    show (do
      let (port, rest) ← readPort (beBytes port.val 2 ++ rest)
      Except.ok (NetAddress.ipv6 ip port, rest)) = _
    rw [readPort_append]
    rfl
  | onionV2 service port =>
    show decodeAddr (⟨3, by omega⟩ :: (service.val ++ beBytes port.val 2 ++ rest)) = _
    rw [decodeAddr, if_neg (by simp), if_neg (by simp), if_pos rfl,
      List.append_assoc, readBytesN_append]
    show (do
      let (port, rest) ← readPort (beBytes port.val 2 ++ rest)
      Except.ok (NetAddress.onionV2 service port, rest)) = _
    rw [readPort_append]
    rfl
  | onionV3 service port =>
    show decodeAddr (⟨4, by omega⟩ :: (service.val ++ beBytes port.val 2 ++ rest)) = _
    rw [decodeAddr, if_neg (by simp), if_neg (by simp), if_neg (by simp),
      if_pos rfl, List.append_assoc, readBytesN_append]
    show (do
      let (port, rest) ← readPort (beBytes port.val 2 ++ rest)
      Except.ok (NetAddress.onionV3 service port, rest)) = _
    rw [readPort_append]
    rfl

/-- The concatenated encodings of a list of addresses (the body of a node
announcement's address block). -/
def encodeAddrList : List NetAddress → List Byte
  | [] => []
  | a :: as => encodeAddr a ++ encodeAddrList as

/-- Modelled from the spec: decode addresses one after another until the
address block is exhausted.  The first argument is recursion fuel, always
instantiated with the block length (every address consumes at least one
byte, so that much fuel suffices). -/
def decodeAddrList : Nat → List Byte → Except CodecErr (List NetAddress)
  | _, [] => .ok []
  | 0, _ :: _ => .error .truncatedMessage
  | fuel + 1, b :: bs => do
    let (a, rest) ← decodeAddr (b :: bs)
    let as ← decodeAddrList fuel rest
    .ok (a :: as)

theorem encodeAddr_length_pos (a : NetAddress) : 0 < (encodeAddr a).length := by
  cases a <;> simp [encodeAddr]

theorem decodeAddrList_encodeAddrList (as : List NetAddress) (fuel : Nat)
    (hfuel : (encodeAddrList as).length ≤ fuel) :
    decodeAddrList fuel (encodeAddrList as) = .ok as := by
  induction as generalizing fuel with
  | nil => cases fuel <;> rfl
  | cons a as ih =>
    have hcons : ∃ b bs, encodeAddr a = b :: bs := by
      cases a <;> exact ⟨_, _, rfl⟩
    obtain ⟨b, bs, hab⟩ := hcons
    have hlen : (encodeAddrList (a :: as)).length
        = (encodeAddr a).length + (encodeAddrList as).length := by
      show (encodeAddr a ++ encodeAddrList as).length = _
      simp
    have hpos := encodeAddr_length_pos a
    obtain ⟨fuel, rfl⟩ : ∃ f, fuel = f + 1 := by
      cases fuel with
      | zero => omega
      | succ f => exact ⟨f, rfl⟩
    show decodeAddrList (fuel + 1) (encodeAddr a ++ encodeAddrList as) = _
    rw [hab]
    show decodeAddrList (fuel + 1) (b :: (bs ++ encodeAddrList as)) = _
    rw [decodeAddrList]
    rw [show b :: (bs ++ encodeAddrList as) = encodeAddr a ++ encodeAddrList as by
      rw [hab]; rfl]
    rw [decodeAddr_encodeAddr a (encodeAddrList as)]
    show (do
      let as2 ← decodeAddrList fuel (encodeAddrList as)
      Except.ok (a :: as2)) = _
    rw [ih fuel (by omega)]
    rfl

/-- Modelled from the spec: §4.3's compact channel identifier (`lnwire`'s
`ShortChannelID`, not under `src/`): 24 bits of block height, 24 bits of
transaction index and 16 bits of output position. -/
structure ShortChannelID where
  blockHeight : Nat
  txIndex : Nat
  txPosition : Nat
  deriving DecidableEq, Repr

/-- Modelled from the spec: §4.3 `pack`, placing the block height in the
high 24 bits, the transaction index in the middle 24 and the output
position in the low 16 bits of a 64-bit integer; oversized inputs are bit
truncated, not validated. -/
def ShortChannelID.ToUint64 (s : ShortChannelID) : Nat :=
  s.blockHeight % 2 ^ 24 * 2 ^ 40 + s.txIndex % 2 ^ 24 * 2 ^ 16 + s.txPosition % 2 ^ 16

/-- Modelled from the spec: §4.3 `unpack`, recovering the three coordinates
from the packed 64-bit integer. -/
def NewShortChanIDFromInt (u : Nat) : ShortChannelID :=
  ⟨u / 2 ^ 40 % 2 ^ 24, u / 2 ^ 16 % 2 ^ 24, u % 2 ^ 16⟩

theorem ShortChannelID.ToUint64_lt (s : ShortChannelID) : s.ToUint64 < 2 ^ 64 := by
  have h1 : s.blockHeight % 2 ^ 24 < 2 ^ 24 := Nat.mod_lt _ (by norm_num)
  have h2 : s.txIndex % 2 ^ 24 < 2 ^ 24 := Nat.mod_lt _ (by norm_num)
  have h3 : s.txPosition % 2 ^ 16 < 2 ^ 16 := Nat.mod_lt _ (by norm_num)
  rw [ShortChannelID.ToUint64]
  omega

/-- The element kinds of the wire element codec (§4.1, §6): fixed-width
big-endian integers, fixed-length raw byte strings (hashes, keys,
signatures), length-prefixed variable byte strings with a per-call-site
maximum, feature vectors, short channel ids, outpoints and address lists. -/
inductive FieldTy where
  | uint (width : Nat)
  | fixedBytes (len : Nat)
  | varBytes (maxLen : Nat)
  | features
  | scid
  | outpoint
  | addrList
  deriving DecidableEq, Repr

/-- A wire element value, one constructor per element kind of `FieldTy`. -/
inductive FieldVal where
  | uint (width : Nat) (v : Nat)
  | fixedBytes (b : List Byte)
  | varBytes (b : List Byte)
  | features (fv : RawFeatureVector)
  | scid (s : ShortChannelID)
  | outpoint (hash : BytesN 32) (index : Nat)
  | addrList (as : List NetAddress)
  deriving DecidableEq

/-- Modelled from the spec: the `lnwire` element writer `WriteElement`
(its source file is not under `src/`; only `src/lnwire/lnwire_test.go`
exercises it).  Integers are fixed-width big-endian (§4.1); variable byte
strings carry a compact length prefix (§6); feature vectors and address
lists carry a 2-byte big-endian byte-length prefix followed by their §4.2
and §4.4 encodings; short channel ids are the 8-byte packed integer of
§4.3; outpoints are the 36-byte composite of §4.1 whose 4-byte index field
must not exceed 16 bits (§8.3), failing at write time otherwise. -/
def WriteElement : FieldVal → Except CodecErr (List Byte)
  | .uint w v => .ok (beBytes v w)
  | .fixedBytes b => .ok b
  | .varBytes b => .ok (writeVarInt b.length ++ b)
  | .features fv => .ok (beBytes fv.serializeSize 2 ++ fv.encodeBytes)
  | .scid s => .ok (beBytes s.ToUint64 8)
  | .outpoint hash index =>
    if 2 ^ 16 ≤ index then .error .outpointIndexTooLarge
    else .ok (hash.val ++ beBytes index 4)
  | .addrList as =>
    .ok (beBytes (encodeAddrList as).length 2 ++ encodeAddrList as)

/-- Consume a length-prefixed variable byte string, modelling
`wire.ReadVarBytes(r, 0, maxAllowed, ...)`: the compact length prefix is
read first and checked against the call site's maximum, failing with
`MaxLengthExceeded` before the raw bytes themselves are read. -/
def readVarBytes (maxAllowed : Nat) (bs : List Byte) :
    Except CodecErr (List Byte × List Byte) := do
  let (n, rest) ← readVarInt bs
  if maxAllowed < n then .error .maxLengthExceeded
  else do
    let (v, rest) ← readBytesN n rest
    .ok (v.val, rest)

/-- Modelled from the spec: the `lnwire` element reader `ReadElement`,
mirroring `WriteElement` kind by kind. -/
def ReadElement : FieldTy → List Byte → Except CodecErr (FieldVal × List Byte)
  | .uint w, bs => do
    let (v, rest) ← readBeUint w bs
    .ok (.uint w v, rest)
  | .fixedBytes n, bs => do
    let (v, rest) ← readBytesN n bs
    .ok (.fixedBytes v.val, rest)
  | .varBytes maxLen, bs => do
    let (b, rest) ← readVarBytes maxLen bs
    .ok (.varBytes b, rest)
  | .features, bs => do
    let (len, rest) ← readBeUint 2 bs
    let (v, rest) ← readBytesN len rest
    .ok (.features (RawFeatureVector.decodeBytes v.val), rest)
  | .scid, bs => do
    let (u, rest) ← readBeUint 8 bs
    .ok (.scid (NewShortChanIDFromInt u), rest)
  | .outpoint, bs => do
    let (hash, rest) ← readBytesN 32 bs
    let (index, rest) ← readBeUint 4 rest
    .ok (.outpoint hash index, rest)
  | .addrList, bs => do
    let (len, rest) ← readBeUint 2 bs
    let (block, rest) ← readBytesN len rest
    let as ← decodeAddrList len block.val
    .ok (.addrList as, rest)

/-- A validly constructed element of a given kind: the kinds match and each
numeric component fits the bit width its wire layout gives it. -/
def wfField : FieldTy → FieldVal → Bool
  | .uint w, .uint w2 v => w2 = w && v < 256 ^ w
  | .fixedBytes n, .fixedBytes b => b.length = n
  | .varBytes maxLen, .varBytes b => b.length ≤ maxLen && b.length < 2 ^ 64
  | .features, .features fv => fv.serializeSize < 65536
  | .scid, .scid s =>
    s.blockHeight < 2 ^ 24 && s.txIndex < 2 ^ 24 && s.txPosition < 2 ^ 16
  | .outpoint, .outpoint _ index => index < 2 ^ 16
  | .addrList, .addrList as => (encodeAddrList as).length < 65536
  | _, _ => false

/-- Unpacking the packed form of an in-range short channel id restores it. -/
theorem NewShortChanIDFromInt_ToUint64 (s : ShortChannelID)
    (h1 : s.blockHeight < 2 ^ 24) (h2 : s.txIndex < 2 ^ 24)
    (h3 : s.txPosition < 2 ^ 16) :
    NewShortChanIDFromInt s.ToUint64 = s := by
  obtain ⟨h, t, o⟩ := s
  simp only [ShortChannelID.ToUint64] at *
  simp only [NewShortChanIDFromInt, ShortChannelID.mk.injEq]
  refine ⟨?_, ?_, ?_⟩ <;> omega

theorem exceptOkBind {α β : Type} (a : α) (f : α → Except CodecErr β) :
    (Except.ok a >>= f : Except CodecErr β) = f a := rfl

/-- Decoding the encoding of a well-formed wire element restores the
element and leaves trailing bytes untouched. -/
theorem ReadElement_WriteElement (ty : FieldTy) (v : FieldVal)
    (hwf : wfField ty v = true) (enc rest : List Byte)
    (henc : WriteElement v = .ok enc) :
    ReadElement ty (enc ++ rest) = .ok (v, rest) := by
  cases ty <;> cases v <;> (try exact Bool.noConfusion hwf) <;> simp only [wfField] at hwf
  case uint.uint w w2 n =>
    simp only [Bool.and_eq_true, decide_eq_true_eq] at hwf
    obtain ⟨rfl, hn⟩ := hwf
    obtain rfl : enc = beBytes n w2 := (Except.ok.inj henc).symm
    simp only [ReadElement]
    rw [readBeUint_append _ _ hn]
    rfl
  case fixedBytes.fixedBytes n b =>
    simp only [decide_eq_true_eq] at hwf
    have hb : b = enc := Except.ok.inj henc
    rw [← hb]
    simp only [ReadElement]
    rw [show b ++ rest = (⟨b, hwf⟩ : BytesN n).val ++ rest from rfl, readBytesN_append]
    rfl
  case varBytes.varBytes maxLen b =>
    simp only [Bool.and_eq_true, decide_eq_true_eq] at hwf
    obtain ⟨hmax, h64⟩ := hwf
    obtain rfl : enc = writeVarInt b.length ++ b := (Except.ok.inj henc).symm
    simp only [ReadElement, readVarBytes, List.append_assoc]
    rw [readVarInt_append _ (by omega) _]
    simp only [exceptOkBind]
    rw [if_neg (by omega)]
    rw [show b ++ rest = (⟨b, rfl⟩ : BytesN b.length).val ++ rest from rfl,
      readBytesN_append]
    rfl
  case features.features fv =>
    simp only [decide_eq_true_eq] at hwf
    obtain rfl : enc = beBytes fv.serializeSize 2 ++ fv.encodeBytes :=
      (Except.ok.inj henc).symm
    simp only [ReadElement, List.append_assoc]
    rw [readBeUint_append _ _ (show fv.serializeSize < 256 ^ 2 by omega)]
    simp only [exceptOkBind]
    rw [show fv.encodeBytes ++ rest
        = (⟨fv.encodeBytes, fv.encodeBytes_length⟩ : BytesN fv.serializeSize).val ++ rest
      from rfl, readBytesN_append]
    simp only [exceptOkBind]
    rw [show RawFeatureVector.decodeBytes
        (⟨fv.encodeBytes, fv.encodeBytes_length⟩ : BytesN fv.serializeSize).val
        = RawFeatureVector.decodeBytes fv.encodeBytes from rfl,
      RawFeatureVector.decodeBytes_encodeBytes]
  case scid.scid s =>
    simp only [Bool.and_eq_true, decide_eq_true_eq] at hwf
    obtain ⟨⟨hh, ht⟩, ho⟩ := hwf
    obtain rfl : enc = beBytes s.ToUint64 8 := (Except.ok.inj henc).symm
    simp only [ReadElement]
    rw [readBeUint_append _ _ (show s.ToUint64 < 256 ^ 8 by
      have := s.ToUint64_lt
      omega)]
    simp only [exceptOkBind]
    rw [NewShortChanIDFromInt_ToUint64 s hh ht ho]
  case outpoint.outpoint hash index =>
    simp only [decide_eq_true_eq] at hwf
    rw [WriteElement, if_neg (by omega)] at henc
    obtain rfl : enc = hash.val ++ beBytes index 4 := (Except.ok.inj henc).symm
    simp only [ReadElement, List.append_assoc]
    rw [readBytesN_append]
    simp only [exceptOkBind]
    rw [readBeUint_append _ _ (show index < 256 ^ 4 by omega)]
    rfl
  case addrList.addrList as =>
    simp only [decide_eq_true_eq] at hwf
    obtain rfl : enc = beBytes (encodeAddrList as).length 2 ++ encodeAddrList as :=
      (Except.ok.inj henc).symm
    simp only [ReadElement, List.append_assoc]
    rw [readBeUint_append _ _ (show (encodeAddrList as).length < 256 ^ 2 by omega)]
    simp only [exceptOkBind]
    rw [show encodeAddrList as ++ rest
        = (⟨encodeAddrList as, rfl⟩ : BytesN (encodeAddrList as).length).val ++ rest
      from rfl, readBytesN_append]
    simp only [exceptOkBind]
    rw [show decodeAddrList (encodeAddrList as).length
        (⟨encodeAddrList as, rfl⟩ : BytesN (encodeAddrList as).length).val
        = decodeAddrList (encodeAddrList as).length (encodeAddrList as) from rfl,
      decodeAddrList_encodeAddrList as _ le_rfl]
    rfl

/-- Modelled from the spec: the shape a message variant declares (§4.5):
its unique 2-byte type code, its ordered field layout, whether it carries
trailing `ExtraOpaqueData`, its maximum allowed payload length, and
whether it carries the optional trailing field pair of channel-reestablish
(last commit secret and unrevoked commit point, both present or both
absent, with remaining-bytes-present as the presence signal at the
receiver, §4.5). -/
structure MsgSchema where
  typeCode : Nat
  fieldTys : List FieldTy
  hasExtra : Bool
  maxPayload : Nat
  optTailPair : Bool
  deriving DecidableEq, Repr

/-- A wire message value: its type code, its ordered field values, its
trailing `ExtraOpaqueData` byte string (empty for variants without one),
and the optional trailing pair of a 32-byte last commit secret and a
33-byte unrevoked commit point (`none` for variants without one).  On the
wire the pair sits between the ordered fields and the extension data. -/
structure WireMessage where
  typeCode : Nat
  fields : List FieldVal
  extra : List Byte
  tailPair : Option (BytesN 32 × BytesN 33)
  deriving DecidableEq

/-- The field values match the schema's field layout position by position. -/
def wfFields : List FieldTy → List FieldVal → Bool
  | [], [] => true
  | ty :: tys, v :: vs => wfField ty v && wfFields tys vs
  | _, _ => false

/-- A validly constructed instance of a schema: matching type code (within
16 bits), well-formed fields in the declared order, extension data only
when the variant declares it, the optional trailing pair only when the
variant declares it, and — because remaining bytes are the pair's presence
signal — no extension data when a declared pair is absent. -/
def wfMessage (s : MsgSchema) (m : WireMessage) : Bool :=
  m.typeCode = s.typeCode && s.typeCode < 65536
    && wfFields s.fieldTys m.fields
    && (s.hasExtra || m.extra.isEmpty)
    && (s.optTailPair || m.tailPair.isNone)
    && (!s.optTailPair || !m.tailPair.isNone || m.extra.isEmpty)

/-- Encode a message's fields in declared order, concatenating the element
encodings (§4.5: fields are encoded strictly in a fixed field order through
the element codec). -/
def encodeFields : List FieldVal → Except CodecErr (List Byte)
  | [] => .ok []
  | v :: vs => do
    let b ← WriteElement v
    let bs ← encodeFields vs
    .ok (b ++ bs)

/-- Decode a schema's fields in declared order, each consuming exactly the
bytes its element kind requires (§4.6). -/
def decodeFields : List FieldTy → List Byte → Except CodecErr (List FieldVal × List Byte)
  | [], bs => .ok ([], bs)
  | ty :: tys, bs => do
    let (v, rest) ← ReadElement ty bs
    let (vs, rest) ← decodeFields tys rest
    .ok (v :: vs, rest)

/-- Modelled from the spec: the encoding of channel-reestablish's optional
trailing pair (§4.5): nothing when absent, else the 32-byte last commit
secret followed by the 33-byte unrevoked commit point. -/
def encodeTailPair : Option (BytesN 32 × BytesN 33) → List Byte
  | none => []
  | some (sec, pt) => sec.val ++ pt.val

/-- Modelled from the spec: §4.5's receiver rule for the optional trailing
pair — "remaining bytes present" is the presence signal: for a variant
declaring the pair, an empty remainder means absent and a non-empty
remainder must parse as the 32-byte secret and the 33-byte point.  For
variants without the pair nothing is consumed. -/
def readTailPair : Bool → List Byte →
    Except CodecErr (Option (BytesN 32 × BytesN 33) × List Byte)
  | false, bs => .ok (none, bs)
  | true, [] => .ok (none, [])
  | true, b :: bs => do
    let (sec, rest) ← readBytesN 32 (b :: bs)
    let (pt, rest) ← readBytesN 33 rest
    .ok (some (sec, pt), rest)

/-- Modelled from the spec: the framing writer (§4.6 `WriteMessage`):
serialize the fields, append the optional trailing pair if present, append
the `ExtraOpaqueData` verbatim, fail with `PayloadTooLarge` if the payload
exceeds the variant's declared maximum (§8.2: fail at write time, never
truncate), else emit the 2-byte big-endian type code followed by the
payload. -/
def WriteMessage (s : MsgSchema) (m : WireMessage) : Except CodecErr (List Byte) := do
  let body ← encodeFields m.fields
  let payload := body ++ (encodeTailPair m.tailPair ++ m.extra)
  if s.maxPayload < payload.length then .error .payloadTooLarge
  else .ok (beBytes m.typeCode 2 ++ payload)

/-- Look a type code up in the message catalogue. -/
def lookupSchema (cat : List MsgSchema) (code : Nat) : Option MsgSchema :=
  cat.find? (fun s => s.typeCode = code)

/-- The zero value of a field of the given kind, as Go's reflective
`reflect.New` would produce for the corresponding struct field. -/
def zeroField : FieldTy → FieldVal
  | .uint w => .uint w 0
  | .fixedBytes n => .fixedBytes (List.replicate n ⟨0, by omega⟩)
  | .varBytes _ => .varBytes []
  | .features => .features .empty
  | .scid => .scid ⟨0, 0, 0⟩
  | .outpoint => .outpoint ⟨List.replicate 32 ⟨0, by omega⟩, by simp⟩ 0
  | .addrList => .addrList []

/-- Modelled from the spec: §4.5 dispatch (`makeEmptyMessage`), returning a
zero-valued instance of the variant registered for the type code, or
failing with `UnknownMessageType` for a code outside the catalogue. -/
def makeEmptyMessage (cat : List MsgSchema) (code : Nat) : Except CodecErr WireMessage :=
  match lookupSchema cat code with
  | some s => .ok ⟨s.typeCode, s.fieldTys.map zeroField, [], none⟩
  | none => .error .unknownMessageType

/-- Modelled from the spec: the framing reader (§4.6 `ReadMessage`): read
the 2-byte type code, resolve the variant (failing with
`UnknownMessageType` for unregistered codes), fail with `PayloadTooLarge`
on an oversize payload, decode the fields in order, then resolve the
optional trailing pair by the remaining-bytes presence signal when the
variant declares it, and store any bytes remaining after that verbatim
as `ExtraOpaqueData` for variants that declare it. -/
def ReadMessage (cat : List MsgSchema) (bs : List Byte) : Except CodecErr WireMessage := do
  let (code, payload) ← readBeUint 2 bs
  match lookupSchema cat code with
  | none => .error .unknownMessageType
  | some s =>
    if s.maxPayload < payload.length then .error .payloadTooLarge
    else do
      let (vs, rem) ← decodeFields s.fieldTys payload
      let (tp, rem) ← readTailPair s.optTailPair rem
      if s.hasExtra then .ok ⟨code, vs, rem, tp⟩
      else if rem.isEmpty then .ok ⟨code, vs, [], tp⟩
      else .error .extraneousBytes

/-- Decoding the concatenated encodings of well-formed fields restores the
field values and leaves the remaining bytes untouched. -/
theorem decodeFields_encodeFields (tys : List FieldTy) (vs : List FieldVal)
    (hwf : wfFields tys vs = true) (body rest : List Byte)
    (henc : encodeFields vs = .ok body) :
    decodeFields tys (body ++ rest) = .ok (vs, rest) := by
  induction tys generalizing vs body rest with
  | nil =>
    cases vs with
    | nil =>
      obtain rfl : body = ([] : List Byte) := (Except.ok.inj henc).symm
      rfl
    | cons v vs => exact Bool.noConfusion hwf
  | cons ty tys ih =>
    cases vs with
    | nil => exact Bool.noConfusion hwf
    | cons v vs =>
      simp only [wfFields, Bool.and_eq_true] at hwf
      obtain ⟨hwf1, hwf2⟩ := hwf
      rw [encodeFields] at henc
      cases hW : WriteElement v with
      | error c => rw [hW] at henc; exact Except.noConfusion henc
      | ok b =>
        rw [hW] at henc
        simp only [exceptOkBind] at henc
        cases hE : encodeFields vs with
        | error c => rw [hE] at henc; exact Except.noConfusion henc
        | ok bs2 =>
          rw [hE] at henc
          simp only [exceptOkBind] at henc
          obtain rfl : body = b ++ bs2 := (Except.ok.inj henc).symm
          rw [decodeFields, List.append_assoc,
            ReadElement_WriteElement ty v hwf1 b (bs2 ++ rest) hW]
          simp only [exceptOkBind]
          rw [ih vs hwf2 bs2 rest hE]
          rfl

/-- Reading the encoding of the optional trailing pair restores it and
leaves the extension data as the remainder, under the §4.5 presence
contract: a variant without the pair carries none, and when a declared
pair is absent no extension data may follow it. -/
theorem readTailPair_encodeTailPair (opt : Bool)
    (tp : Option (BytesN 32 × BytesN 33)) (ex : List Byte)
    (h1 : opt = false → tp = none)
    (h2 : opt = true → tp = none → ex = []) :
    readTailPair opt (encodeTailPair tp ++ ex) = .ok (tp, ex) := by
  cases opt with
  | false =>
    rw [h1 rfl]
    rfl
  | true =>
    cases tp with
    | none =>
      rw [h2 rfl rfl]
      rfl
    | some p =>
      obtain ⟨sec, pt⟩ := p
      have hsec := sec.property
      cases hv : sec.val with
      | nil => rw [hv] at hsec; exact absurd hsec (by simp)
      | cons b t =>
        have hsplit : encodeTailPair (some (sec, pt)) ++ ex
            = b :: (t ++ (pt.val ++ ex)) := by
          show (sec.val ++ pt.val) ++ ex = _
          rw [hv]
          simp
        rw [hsplit, readTailPair]
        rw [show b :: (t ++ (pt.val ++ ex)) = sec.val ++ (pt.val ++ ex) by
          rw [hv]; rfl]
        rw [readBytesN_append]
        simp only [exceptOkBind]
        rw [readBytesN_append]
        rfl

/-- Reading back a written message restores it: the §4.5 round-trip
contract, generic in the catalogue and schema, covering the optional
trailing pair when the variant declares one. -/
theorem ReadMessage_WriteMessage (cat : List MsgSchema) (s : MsgSchema)
    (m : WireMessage) (bs : List Byte)
    (hlookup : lookupSchema cat s.typeCode = some s)
    (hwf : wfMessage s m = true)
    (henc : WriteMessage s m = .ok bs) :
    ReadMessage cat bs = .ok m := by
  obtain ⟨tc, flds, ex, tp⟩ := m
  simp only [wfMessage, Bool.and_eq_true, decide_eq_true_eq, Bool.or_eq_true,
    Bool.not_eq_true'] at hwf
  obtain ⟨⟨⟨⟨⟨hcode, h16⟩, hflds⟩, hex⟩, htp1⟩, htp2⟩ := hwf
  have h1 : s.optTailPair = false → tp = none := by
    intro hf
    cases htp1 with
    | inl h => rw [hf] at h; exact Bool.noConfusion h
    | inr h => exact Option.isNone_iff_eq_none.mp h
  have h2 : s.optTailPair = true → tp = none → ex = [] := by
    intro ht hnone
    cases htp2 with
    | inl h =>
      cases h with
      | inl h => rw [ht] at h; exact Bool.noConfusion h
      | inr h => rw [hnone] at h; exact Bool.noConfusion h
    | inr h => exact List.isEmpty_iff.mp h
  rw [WriteMessage] at henc
  cases hE : encodeFields flds with
  | error c => rw [hE] at henc; exact Except.noConfusion henc
  | ok body =>
    rw [hE] at henc
    simp only [exceptOkBind] at henc
    by_cases hlen : s.maxPayload < (body ++ (encodeTailPair tp ++ ex)).length
    · rw [if_pos hlen] at henc; exact Except.noConfusion henc
    · rw [if_neg hlen] at henc
      obtain rfl : bs = beBytes tc 2 ++ (body ++ (encodeTailPair tp ++ ex)) :=
        (Except.ok.inj henc).symm
      rw [ReadMessage]
      rw [readBeUint_append 2 tc (show tc < 256 ^ 2 by omega) _]
      simp only [exceptOkBind]
      rw [hcode, hlookup]
      show (if s.maxPayload < (body ++ (encodeTailPair tp ++ ex)).length
          then (Except.error CodecErr.payloadTooLarge : Except CodecErr WireMessage)
          else decodeFields s.fieldTys (body ++ (encodeTailPair tp ++ ex)) >>= fun p =>
            readTailPair s.optTailPair p.2 >>= fun q =>
              if s.hasExtra = true then Except.ok (WireMessage.mk s.typeCode p.1 q.2 q.1)
              else if q.2.isEmpty = true then Except.ok (WireMessage.mk s.typeCode p.1 [] q.1)
              else Except.error CodecErr.extraneousBytes) = _
      rw [if_neg hlen]
      rw [decodeFields_encodeFields s.fieldTys flds hflds body (encodeTailPair tp ++ ex) hE]
      simp only [exceptOkBind]
      rw [readTailPair_encodeTailPair s.optTailPair tp ex h1 h2]
      simp only [exceptOkBind]
      cases hhe : s.hasExtra with
      | true => rfl
      | false =>
        rw [hhe] at hex
        obtain hnil : ex = [] := by
          cases hex with
          | inl h => exact Bool.noConfusion h
          | inr h => exact List.isEmpty_iff.mp h
        subst hnil
        rfl

/-- Modelled from the spec: the channel-announcement variant (§3, §4.5 and
the test's `MsgChannelAnnouncement` generator): four 64-byte signatures, a
feature vector, the 32-byte chain hash, the short channel id, four 33-byte
raw keys, then trailing `ExtraOpaqueData`. -/
def chanAnnSchema : MsgSchema :=
  { typeCode := 256
    fieldTys := [.fixedBytes 64, .fixedBytes 64, .fixedBytes 64, .fixedBytes 64,
      .features, .fixedBytes 32, .scid,
      .fixedBytes 33, .fixedBytes 33, .fixedBytes 33, .fixedBytes 33]
    hasExtra := true
    maxPayload := 65535
    optTailPair := false }

/-- Modelled from the spec: the registered message catalogue (§3 lists the
variants; the `lnwire` sources defining each layout are not under `src/`,
so the layouts are reconstructed from the spec's data model and the field
sets exercised by `src/lnwire/lnwire_test.go`; every declared maximum
payload is the transport ceiling of 65535 bytes).  The channel-reestablish
entry (type code 136) declares the optional trailing pair of §4.5, whose
presence the receiver infers from remaining bytes.  The round-trip and
dispatch theorems below are generic in the schema, so they do not depend
on the particular layouts chosen here. -/
def msgCatalogue : List MsgSchema :=
  [ { typeCode := 16, fieldTys := [.features, .features],
      hasExtra := false, maxPayload := 65535, optTailPair := false },
    { typeCode := 17, fieldTys := [.fixedBytes 32, .varBytes 65535],
      hasExtra := false, maxPayload := 65535, optTailPair := false },
    { typeCode := 18, fieldTys := [.uint 2, .varBytes 65535],
      hasExtra := false, maxPayload := 65535, optTailPair := false },
    { typeCode := 19, fieldTys := [.varBytes 65535],
      hasExtra := false, maxPayload := 65535, optTailPair := false },
    { typeCode := 32, fieldTys := [.fixedBytes 32, .fixedBytes 32, .uint 8, .uint 8,
        .uint 8, .uint 8, .uint 8, .uint 8, .uint 4, .uint 2, .uint 2,
        .fixedBytes 33, .fixedBytes 33, .fixedBytes 33, .fixedBytes 33,
        .fixedBytes 33, .fixedBytes 33, .uint 1],
      hasExtra := false, maxPayload := 65535, optTailPair := false },
    { typeCode := 33, fieldTys := [.fixedBytes 32, .uint 8, .uint 8, .uint 8,
        .uint 4, .uint 8, .uint 2, .uint 2,
        .fixedBytes 33, .fixedBytes 33, .fixedBytes 33, .fixedBytes 33,
        .fixedBytes 33, .fixedBytes 33],
      hasExtra := false, maxPayload := 65535, optTailPair := false },
    { typeCode := 34, fieldTys := [.fixedBytes 32, .outpoint, .fixedBytes 64],
      hasExtra := false, maxPayload := 65535, optTailPair := false },
    { typeCode := 35, fieldTys := [.fixedBytes 32, .fixedBytes 64],
      hasExtra := false, maxPayload := 65535, optTailPair := false },
    { typeCode := 36, fieldTys := [.fixedBytes 32, .fixedBytes 33],
      hasExtra := false, maxPayload := 65535, optTailPair := false },
    { typeCode := 38, fieldTys := [.fixedBytes 32, .varBytes 65535],
      hasExtra := false, maxPayload := 65535, optTailPair := false },
    { typeCode := 39, fieldTys := [.fixedBytes 32, .uint 8, .fixedBytes 64],
      hasExtra := false, maxPayload := 65535, optTailPair := false },
    { typeCode := 128, fieldTys := [.fixedBytes 32, .uint 8, .uint 8,
        .fixedBytes 32, .uint 4, .fixedBytes 1366],
      hasExtra := false, maxPayload := 65535, optTailPair := false },
    { typeCode := 130, fieldTys := [.fixedBytes 32, .uint 8, .fixedBytes 32],
      hasExtra := false, maxPayload := 65535, optTailPair := false },
    { typeCode := 131, fieldTys := [.fixedBytes 32, .uint 8, .varBytes 65535],
      hasExtra := false, maxPayload := 65535, optTailPair := false },
    { typeCode := 132, fieldTys := [.fixedBytes 32, .fixedBytes 64, .varBytes 65535],
      hasExtra := false, maxPayload := 65535, optTailPair := false },
    { typeCode := 133, fieldTys := [.fixedBytes 32, .fixedBytes 32, .fixedBytes 33],
      hasExtra := false, maxPayload := 65535, optTailPair := false },
    { typeCode := 134, fieldTys := [.fixedBytes 32, .uint 4],
      hasExtra := false, maxPayload := 65535, optTailPair := false },
    { typeCode := 135, fieldTys := [.fixedBytes 32, .uint 8, .fixedBytes 32, .uint 2],
      hasExtra := false, maxPayload := 65535, optTailPair := false },
    { typeCode := 136, fieldTys := [.fixedBytes 32, .uint 8, .uint 8],
      hasExtra := false, maxPayload := 65535, optTailPair := true },
    chanAnnSchema,
    { typeCode := 257, fieldTys := [.fixedBytes 64, .features, .uint 4,
        .fixedBytes 33, .fixedBytes 3, .fixedBytes 32, .addrList],
      hasExtra := true, maxPayload := 65535, optTailPair := false },
    { typeCode := 258, fieldTys := [.fixedBytes 64, .fixedBytes 32, .scid,
        .uint 4, .uint 2, .uint 2, .uint 8, .uint 4, .uint 4],
      hasExtra := true, maxPayload := 65535, optTailPair := false },
    { typeCode := 259, fieldTys := [.fixedBytes 32, .scid, .fixedBytes 64,
        .fixedBytes 64],
      hasExtra := true, maxPayload := 65535, optTailPair := false },
    { typeCode := 261, fieldTys := [.fixedBytes 32, .varBytes 65535],
      hasExtra := false, maxPayload := 65535, optTailPair := false },
    { typeCode := 262, fieldTys := [.fixedBytes 32, .uint 1],
      hasExtra := false, maxPayload := 65535, optTailPair := false },
    { typeCode := 263, fieldTys := [.fixedBytes 32, .uint 4, .uint 4],
      hasExtra := false, maxPayload := 65535, optTailPair := false },
    { typeCode := 264, fieldTys := [.fixedBytes 32, .uint 4, .uint 4, .uint 1,
        .varBytes 65535],
      hasExtra := false, maxPayload := 65535, optTailPair := false },
    { typeCode := 265, fieldTys := [.fixedBytes 32, .uint 4, .uint 4],
      hasExtra := false, maxPayload := 65535, optTailPair := false } ]

/-- `outPointSize` of `src/channeldb/codec.go`: the size of a serialized
outpoint on disk. -/
def outPointSize : Nat := 36

/-- `writeOutpoint` of `src/channeldb/codec.go`: the 32-byte transaction
hash followed by the 4-byte output index.  The package's `byteOrder` is
not part of the provided sources; it is modelled as big-endian per §6
(the persistence codec reuses the wire conventions' endianness).  The
index is the full 32-bit value: no 16-bit bound is imposed here, unlike
the wire codec's outpoint element. -/
def writeOutpoint (hash : BytesN 32) (index : Nat) : List Byte :=
  hash.val ++ beBytes index 4

/-- `readOutpoint` of `src/channeldb/codec.go`: read back the 32-byte hash
and the 4-byte index. -/
def readOutpoint (bs : List Byte) : Except CodecErr ((BytesN 32 × Nat) × List Byte) := do
  let (hash, rest) ← readBytesN 32 bs
  let (index, rest) ← readBeUint 4 rest
  .ok ((hash, index), rest)

/-- The signed 32-bit integer denoted by a 4-byte big-endian two's
complement pattern (`binary.Read` into an `int32`). -/
def int32OfBe (n : Nat) : Int :=
  if n < 2 ^ 31 then (n : Int) else (n : Int) - 2 ^ 32

/-- The element kinds supported by the persistence codec's `writeElement`
switch in `src/channeldb/codec.go`, one constructor per `case`, plus
`unsupported`, standing for a value of any Go type outside the closed
set (the `default` case).  Types whose definitions are not under `src/`
are modelled as follows: `ChannelType`, `ClosureType` and
`lnwire.FundingFlag` carry their numeric value (their fixed widths are
modelled as one byte); `*secp256k1.PublicKey` carries its 33-byte
compressed serialization; `shachain.Producer` carries its 32-byte
revocation root (the read path of the source reads exactly 32 bytes);
`shachain.Store` and `*wire.MsgTx` carry their opaque serializations;
`lnwire.Message` is a wire message written through `lnwire.WriteMessage`. -/
inductive DbElement where
  | channelType (v : Fin 256)
  | hash (h : BytesN 32)
  | outPoint (hash : BytesN 32) (index : Nat)
  | shortChanID (s : ShortChannelID)
  | uint64 (v : Nat)
  | uint32 (v : Nat)
  | int32 (v : Int)
  | uint16 (v : Nat)
  | boolean (b : Bool)
  | amount (v : Nat)
  | milliSatoshi (v : Nat)
  | pubKey (compressed : BytesN 33)
  | producer (root : BytesN 32)
  | store (enc : List Byte)
  | msgTx (enc : List Byte)
  | bytes32 (b : BytesN 32)
  | byteSlice (b : List Byte)
  | lnMsg (m : WireMessage)
  | closureType (v : Fin 256)
  | fundingFlag (v : Fin 256)
  | unsupported
  deriving DecidableEq

/-- `writeElement` of `src/channeldb/codec.go`: the one-stop writer over
the closed set of supported element kinds, returning the bytes appended to
the sink; the `default` case returns the `Unknown type in writeElement`
error and writes nothing. -/
def writeElement : DbElement → Except CodecErr (List Byte)
  | .channelType v => .ok [v]
  | .hash h => .ok h.val
  | .outPoint hash index => .ok (writeOutpoint hash index)
  | .shortChanID s => .ok (beBytes s.ToUint64 8)
  | .uint64 v => .ok (beBytes v 8)
  | .uint32 v => .ok (beBytes v 4)
  | .int32 v => .ok (beBytes (v % 2 ^ 32).toNat 4)
  | .uint16 v => .ok (beBytes v 2)
  | .boolean b => .ok [if b then 1 else 0]
  | .amount v => .ok (beBytes v 8)
  | .milliSatoshi v => .ok (beBytes v 8)
  | .pubKey compressed => .ok compressed.val
  | .producer root => .ok root.val
  | .store enc => .ok enc
  | .msgTx enc => .ok enc
  | .bytes32 b => .ok b.val
  | .byteSlice b => .ok (writeVarInt b.length ++ b)
  | .lnMsg m =>
    match lookupSchema msgCatalogue m.typeCode with
    | some s => WriteMessage s m
    | none => .error .unknownMessageType
  | .closureType v => .ok [v]
  | .fundingFlag v => .ok [v]
  | .unsupported => .error .unsupportedElementType

/-- The destination kinds of the persistence codec's `readElement` switch
in `src/channeldb/codec.go`, mirroring `DbElement` pointer case by pointer
case, with `unsupported` standing for a destination of any Go type outside
the closed set (the `default` case). -/
inductive DbPtr where
  | channelType
  | hash
  | outPoint
  | shortChanID
  | uint64
  | uint32
  | int32
  | uint16
  | boolean
  | amount
  | milliSatoshi
  | pubKey
  | producer
  | store
  | msgTx
  | bytes32
  | byteSlice
  | lnMsg
  | closureType
  | fundingFlag
  | unsupported
  deriving DecidableEq

/-- Modelled from the spec: `secp256k1.ParsePubKey`'s validation (§4.1
requires decode to validate curve membership, failing with
`InvalidPublicKey` on malformed input).  Curve membership itself is opaque
cryptography (§1 non-goals); the model checks the SEC1 compressed-form tag
byte, the part of the validation expressible over bytes. -/
def validPubKey (b : BytesN 33) : Bool :=
  match b.val with
  | t :: _ => t.val = 2 || t.val = 3
  | [] => false

/-- `readElement` of `src/channeldb/codec.go`: the one-stop reader over
the mirrored closed set of destination kinds; the `default` case returns
the `Unknown type in readElement` error.  The `shachain.Store` and
`*wire.MsgTx` parsers are collaborator code outside the provided sources
and are modelled as consuming the remainder of the reader. -/
def readElement : DbPtr → List Byte → Except CodecErr (DbElement × List Byte)
  | .channelType, bs => do
    let (n, rest) ← readBeUint 1 bs
    .ok (.channelType ⟨n % 256, Nat.mod_lt _ (by omega)⟩, rest)
  | .hash, bs => do
    let (h, rest) ← readBytesN 32 bs
    .ok (.hash h, rest)
  | .outPoint, bs => do
    let ((hash, index), rest) ← readOutpoint bs
    .ok (.outPoint hash index, rest)
  | .shortChanID, bs => do
    let (u, rest) ← readBeUint 8 bs
    .ok (.shortChanID (NewShortChanIDFromInt u), rest)
  | .uint64, bs => do
    let (v, rest) ← readBeUint 8 bs
    .ok (.uint64 v, rest)
  | .uint32, bs => do
    let (v, rest) ← readBeUint 4 bs
    .ok (.uint32 v, rest)
  | .int32, bs => do
    let (v, rest) ← readBeUint 4 bs
    .ok (.int32 (int32OfBe v), rest)
  | .uint16, bs => do
    let (v, rest) ← readBeUint 2 bs
    .ok (.uint16 v, rest)
  | .boolean, bs => do
    let (v, rest) ← readBeUint 1 bs
    .ok (.boolean (v ≠ 0), rest)
  | .amount, bs => do
    let (v, rest) ← readBeUint 8 bs
    .ok (.amount v, rest)
  | .milliSatoshi, bs => do
    let (v, rest) ← readBeUint 8 bs
    .ok (.milliSatoshi v, rest)
  | .pubKey, bs => do
    let (b, rest) ← readBytesN 33 bs
    if validPubKey b then .ok (.pubKey b, rest)
    else .error .invalidPublicKey
  | .producer, bs => do
    let (root, rest) ← readBytesN 32 bs
    .ok (.producer root, rest)
  | .store, bs => .ok (.store bs, [])
  | .msgTx, bs => .ok (.msgTx bs, [])
  | .bytes32, bs => do
    let (b, rest) ← readBytesN 32 bs
    .ok (.bytes32 b, rest)
  | .byteSlice, bs => do
    let (n, rest) ← readVarInt bs
    if 66000 < n then .error .maxLengthExceeded
    else do
      let (v, rest) ← readBytesN n rest
      .ok (.byteSlice v.val, rest)
  | .lnMsg, bs => do
    let m ← ReadMessage msgCatalogue bs
    .ok (.lnMsg m, [])
  | .closureType, bs => do
    let (n, rest) ← readBeUint 1 bs
    .ok (.closureType ⟨n % 256, Nat.mod_lt _ (by omega)⟩, rest)
  | .fundingFlag, bs => do
    let (n, rest) ← readBeUint 1 bs
    .ok (.fundingFlag ⟨n % 256, Nat.mod_lt _ (by omega)⟩, rest)
  | .unsupported, _ => .error .unsupportedElementType

theorem bind_ne_error {α β : Type} {err : CodecErr} {e : Except CodecErr α}
    {f : α → Except CodecErr β} (h1 : e ≠ .error err)
    (h2 : ∀ a, f a ≠ .error err) : (e >>= f) ≠ .error err := by
  cases e with
  | error c =>
    intro hc
    have hc2 : (Except.error c : Except CodecErr β) = .error err := hc
    have hce : c = err := by injection hc2
    exact h1 (by rw [hce])
  | ok a => exact h2 a

theorem readBytesN_ne_unsupported (n : Nat) (bs : List Byte) :
    readBytesN n bs ≠ .error .unsupportedElementType := by
  rw [readBytesN]; split <;> simp

theorem readBeUint_ne_unsupported (w : Nat) (bs : List Byte) :
    readBeUint w bs ≠ .error .unsupportedElementType := by
  rw [readBeUint]
  refine bind_ne_error (readBytesN_ne_unsupported w bs) ?_
  rintro ⟨v, rest⟩
  simp

theorem readLeUint_ne_unsupported (w : Nat) (bs : List Byte) :
    readLeUint w bs ≠ .error .unsupportedElementType := by
  rw [readLeUint]
  refine bind_ne_error (readBytesN_ne_unsupported w bs) ?_
  rintro ⟨v, rest⟩
  simp

theorem readVarInt_ne_unsupported (bs : List Byte) :
    readVarInt bs ≠ .error .unsupportedElementType := by
  cases bs with
  | nil => simp [readVarInt]
  | cons d rest =>
    rw [readVarInt]
    split
    · simp
    · split
      · refine bind_ne_error (readLeUint_ne_unsupported 2 rest) ?_
        rintro ⟨n, rest2⟩
        dsimp only
        split <;> simp
      · split
        · refine bind_ne_error (readLeUint_ne_unsupported 4 rest) ?_
          rintro ⟨n, rest2⟩
          dsimp only
          split <;> simp
        · refine bind_ne_error (readLeUint_ne_unsupported 8 rest) ?_
          rintro ⟨n, rest2⟩
          dsimp only
          split <;> simp

theorem readPort_ne_unsupported (bs : List Byte) :
    readPort bs ≠ .error .unsupportedElementType := by
  rw [readPort]
  refine bind_ne_error (readBytesN_ne_unsupported 2 bs) ?_
  rintro ⟨v, rest⟩
  simp

theorem decodeAddr_ne_unsupported (bs : List Byte) :
    decodeAddr bs ≠ .error .unsupportedElementType := by
  cases bs with
  | nil => simp [decodeAddr]
  | cons d rest =>
    rw [decodeAddr]
    split
    · refine bind_ne_error (readBytesN_ne_unsupported 4 rest) ?_
      rintro ⟨ip, rest2⟩
      refine bind_ne_error (readPort_ne_unsupported rest2) ?_
      rintro ⟨p, rest3⟩
      simp
    · split
      · refine bind_ne_error (readBytesN_ne_unsupported 16 rest) ?_
        rintro ⟨ip, rest2⟩
        refine bind_ne_error (readPort_ne_unsupported rest2) ?_
        rintro ⟨p, rest3⟩
        simp
      · split
        · refine bind_ne_error (readBytesN_ne_unsupported 10 rest) ?_
          rintro ⟨sv, rest2⟩
          refine bind_ne_error (readPort_ne_unsupported rest2) ?_
          rintro ⟨p, rest3⟩
          simp
        · split
          · refine bind_ne_error (readBytesN_ne_unsupported 35 rest) ?_
            rintro ⟨sv, rest2⟩
            refine bind_ne_error (readPort_ne_unsupported rest2) ?_
            rintro ⟨p, rest3⟩
            simp
          · simp

theorem decodeAddrList_ne_unsupported (fuel : Nat) (bs : List Byte) :
    decodeAddrList fuel bs ≠ .error .unsupportedElementType := by
  induction fuel generalizing bs with
  | zero => cases bs <;> simp [decodeAddrList]
  | succ fuel ih =>
    cases bs with
    | nil => simp [decodeAddrList]
    | cons b rest =>
      rw [decodeAddrList]
      refine bind_ne_error (decodeAddr_ne_unsupported (b :: rest)) ?_
      rintro ⟨a, rest2⟩
      refine bind_ne_error (ih rest2) ?_
      intro as
      simp

theorem readVarBytes_ne_unsupported (maxAllowed : Nat) (bs : List Byte) :
    readVarBytes maxAllowed bs ≠ .error .unsupportedElementType := by
  rw [readVarBytes]
  refine bind_ne_error (readVarInt_ne_unsupported bs) ?_
  rintro ⟨n, rest⟩
  dsimp only
  split
  · simp
  · refine bind_ne_error (readBytesN_ne_unsupported n rest) ?_
    rintro ⟨v, rest2⟩
    simp

theorem ReadElement_ne_unsupported (ty : FieldTy) (bs : List Byte) :
    ReadElement ty bs ≠ .error .unsupportedElementType := by
  cases ty with
  | uint w =>
    rw [ReadElement]
    refine bind_ne_error (readBeUint_ne_unsupported w bs) ?_
    rintro ⟨v, rest⟩; simp
  | fixedBytes n =>
    rw [ReadElement]
    refine bind_ne_error (readBytesN_ne_unsupported n bs) ?_
    rintro ⟨v, rest⟩; simp
  | varBytes maxLen =>
    rw [ReadElement]
    refine bind_ne_error (readVarBytes_ne_unsupported maxLen bs) ?_
    rintro ⟨b, rest⟩; simp
  | features =>
    rw [ReadElement]
    refine bind_ne_error (readBeUint_ne_unsupported 2 bs) ?_
    rintro ⟨len, rest⟩
    refine bind_ne_error (readBytesN_ne_unsupported len rest) ?_
    rintro ⟨v, rest2⟩; simp
  | scid =>
    rw [ReadElement]
    refine bind_ne_error (readBeUint_ne_unsupported 8 bs) ?_
    rintro ⟨u, rest⟩; simp
  | outpoint =>
    rw [ReadElement]
    refine bind_ne_error (readBytesN_ne_unsupported 32 bs) ?_
    rintro ⟨h, rest⟩
    refine bind_ne_error (readBeUint_ne_unsupported 4 rest) ?_
    rintro ⟨i, rest2⟩; simp
  | addrList =>
    rw [ReadElement]
    refine bind_ne_error (readBeUint_ne_unsupported 2 bs) ?_
    rintro ⟨len, rest⟩
    refine bind_ne_error (readBytesN_ne_unsupported len rest) ?_
    rintro ⟨block, rest2⟩
    refine bind_ne_error (decodeAddrList_ne_unsupported len block.val) ?_
    intro as; simp

theorem decodeFields_ne_unsupported (tys : List FieldTy) (bs : List Byte) :
    decodeFields tys bs ≠ .error .unsupportedElementType := by
  induction tys generalizing bs with
  | nil => simp [decodeFields]
  | cons ty tys ih =>
    rw [decodeFields]
    refine bind_ne_error (ReadElement_ne_unsupported ty bs) ?_
    rintro ⟨v, rest⟩
    refine bind_ne_error (ih rest) ?_
    rintro ⟨vs, rest2⟩
    simp

theorem readTailPair_ne_unsupported (opt : Bool) (bs : List Byte) :
    readTailPair opt bs ≠ .error .unsupportedElementType := by
  cases opt with
  | false => simp [readTailPair]
  | true =>
    cases bs with
    | nil => simp [readTailPair]
    | cons b t =>
      rw [readTailPair]
      refine bind_ne_error (readBytesN_ne_unsupported 32 (b :: t)) ?_
      rintro ⟨sec, rest⟩
      refine bind_ne_error (readBytesN_ne_unsupported 33 rest) ?_
      rintro ⟨pt, rest2⟩
      simp

theorem ReadMessage_ne_unsupported (cat : List MsgSchema) (bs : List Byte) :
    ReadMessage cat bs ≠ .error .unsupportedElementType := by
  rw [ReadMessage]
  refine bind_ne_error (readBeUint_ne_unsupported 2 bs) ?_
  rintro ⟨code, payload⟩
  dsimp only
  cases hls : lookupSchema cat code with
  | none => simp
  | some s =>
    dsimp only
    split
    · simp
    · refine bind_ne_error (decodeFields_ne_unsupported s.fieldTys payload) ?_
      rintro ⟨vs, rem⟩
      refine bind_ne_error (readTailPair_ne_unsupported s.optTailPair rem) ?_
      rintro ⟨tp, rem2⟩
      dsimp only
      split
      · simp
      · split <;> simp

theorem WriteElement_ne_unsupported (v : FieldVal) :
    WriteElement v ≠ .error .unsupportedElementType := by
  cases v <;> simp only [WriteElement] <;> try simp
  case outpoint h i => split <;> simp

theorem encodeFields_ne_unsupported (vs : List FieldVal) :
    encodeFields vs ≠ .error .unsupportedElementType := by
  induction vs with
  | nil => simp [encodeFields]
  | cons v vs ih =>
    rw [encodeFields]
    refine bind_ne_error (WriteElement_ne_unsupported v) ?_
    intro b
    refine bind_ne_error ih ?_
    intro bs
    simp

theorem WriteMessage_ne_unsupported (s : MsgSchema) (m : WireMessage) :
    WriteMessage s m ≠ .error .unsupportedElementType := by
  rw [WriteMessage]
  refine bind_ne_error (encodeFields_ne_unsupported m.fields) ?_
  intro body
  dsimp only
  split <;> simp

theorem readOutpoint_ne_unsupported (bs : List Byte) :
    readOutpoint bs ≠ .error .unsupportedElementType := by
  rw [readOutpoint]
  refine bind_ne_error (readBytesN_ne_unsupported 32 bs) ?_
  rintro ⟨h, rest⟩
  refine bind_ne_error (readBeUint_ne_unsupported 4 rest) ?_
  rintro ⟨i, rest2⟩
  simp

/-- The byte stream of a channel announcement whose feature-vector field
is encoded non-minimally (length prefix 1, payload `0x00`, although the
empty vector's minimal encoded length is 0), followed by one trailing
extension byte `0xAA`: type code 256, four zero 64-byte signatures, the
padded empty feature vector, a zero chain hash, a zero short channel id
and four zero 33-byte keys. -/
def c4Stream : List Byte :=
  [1, 0] ++ List.replicate 256 0 ++ [0, 1, 0] ++ List.replicate 172 0 ++ [170]

/-- The message `c4Stream` decodes to. -/
def c4Msg : WireMessage :=
  { typeCode := 256
    fields := [.fixedBytes (List.replicate 64 0), .fixedBytes (List.replicate 64 0),
      .fixedBytes (List.replicate 64 0), .fixedBytes (List.replicate 64 0),
      .features ⟨0⟩, .fixedBytes (List.replicate 32 0), .scid ⟨0, 0, 0⟩,
      .fixedBytes (List.replicate 33 0), .fixedBytes (List.replicate 33 0),
      .fixedBytes (List.replicate 33 0), .fixedBytes (List.replicate 33 0)]
    extra := [170]
    tailPair := none }

/-- What re-encoding `c4Msg` produces: the feature vector comes out at its
minimal length 0, one byte shorter than in `c4Stream`. -/
def c4Reencoded : List Byte :=
  [1, 0] ++ List.replicate 256 0 ++ [0, 0] ++ List.replicate 172 0 ++ [170]

/-- The channel-reestablish schema (type code 136) as registered in the
catalogue, declaring the optional trailing pair. -/
def c1Schema : MsgSchema :=
  { typeCode := 136
    fieldTys := [.fixedBytes 32, .uint 8, .uint 8]
    hasExtra := false
    maxPayload := 65535
    optTailPair := true }

/-- A channel-reestablish instance carrying the optional last-commit-secret
and unrevoked-commit-point pair. -/
def c1Msg : WireMessage :=
  { typeCode := 136
    fields := [.fixedBytes (List.replicate 32 0), .uint 8 1, .uint 8 2]
    extra := []
    tailPair := some (⟨List.replicate 32 5, by simp⟩, ⟨List.replicate 33 6, by simp⟩) }

/-- The wire encoding of `c1Msg`: type code, 32-byte channel id, the two
8-byte heights, then the 65 bytes of the optional pair. -/
def c1Bytes : List Byte :=
  [0, 136] ++ List.replicate 32 0 ++ [0, 0, 0, 0, 0, 0, 0, 1]
    ++ [0, 0, 0, 0, 0, 0, 0, 2] ++ List.replicate 32 5 ++ List.replicate 33 6

/-- Claim C3: `makeEmptyMessage` fails with `UnknownMessageType` for every
2-byte type code outside the registered catalogue; it neither panics (it
is a total function) nor returns a zero-valued message. -/
theorem claim3_unknown_type (code : Nat)
    (h : code ∉ msgCatalogue.map MsgSchema.typeCode) :
    makeEmptyMessage msgCatalogue code = .error .unknownMessageType := by
  rw [makeEmptyMessage]
  have hnone : lookupSchema msgCatalogue code = none := by
    rw [lookupSchema]
    refine List.find?_eq_none.mpr ?_
    intro s hs
    simp only [decide_eq_true_eq]
    intro heq
    exact h (List.mem_map.mpr ⟨s, hs, heq⟩)
  rw [hnone]

/-- Witness for C3 at the type code `0xFFFF` named by the claim. -/
theorem claim3_witness :
    (65535 ∉ msgCatalogue.map MsgSchema.typeCode) ∧
    makeEmptyMessage msgCatalogue 65535 = .error .unknownMessageType :=
  ⟨by decide, claim3_unknown_type 65535 (by decide)⟩

/-- Claim C5: the wire element codec's `WriteElement` fails on an outpoint
whose output index exceeds 16 bits, even though the outpoint's wire layout
structurally carries a 4-byte index field. -/
theorem claim5_outpoint_index_bound (hash : BytesN 32) (index : Nat)
    (h : 2 ^ 16 ≤ index) :
    WriteElement (.outpoint hash index) = .error .outpointIndexTooLarge := by
  rw [WriteElement, if_pos h]

/-- Witness for C5 at index `0xFFFFFFFF`. -/
theorem claim5_witness :
    2 ^ 16 ≤ 0xFFFFFFFF ∧
    WriteElement (.outpoint ⟨List.replicate 32 0, by simp⟩ 0xFFFFFFFF)
      = .error .outpointIndexTooLarge :=
  ⟨by decide, claim5_outpoint_index_bound ⟨List.replicate 32 0, by simp⟩ 0xFFFFFFFF (by decide)⟩

/-- Claim C7: decoding a variable-length byte string reads the compact
length prefix first and fails with `MaxLengthExceeded` whenever the prefix
exceeds the call site's maximum — for the catalogue's largest call-site
maximum of 66000 in `readElement`'s `[]byte` case — before the raw bytes
themselves are read or trusted (the conclusion holds regardless of how few
bytes follow the prefix). -/
theorem claim7_max_length (bs rest : List Byte) (n : Nat)
    (hpre : readVarInt bs = .ok (n, rest)) (hbig : 66000 < n) :
    readElement .byteSlice bs = .error .maxLengthExceeded := by
  rw [readElement, hpre]
  simp only [exceptOkBind]
  rw [if_pos hbig]

/-- Witness for C7: the 5-byte prefix encoding 66001 with no payload bytes
at all (so the failure demonstrably precedes reading the raw bytes). -/
theorem claim7_witness :
    readVarInt [254, 209, 1, 1, 0] = .ok (66001, []) ∧ 66000 < 66001 ∧
    readElement .byteSlice [254, 209, 1, 1, 0] = .error .maxLengthExceeded :=
  ⟨by decide, by decide,
    claim7_max_length [254, 209, 1, 1, 0] [] 66001 (by decide) (by decide)⟩

/-- Claim C8: a feature vector with exactly bits 0 and 9 set encodes to
exactly the two bytes `0b00000010, 0b00000001` (the minimal whole-byte
length covering the highest set bit, with bit 0 the least significant bit
of the last byte), and decoding that byte string yields a vector in which
exactly bits 0 and 9 are set and every other bit, including the padding
bits, is unset. -/
theorem claim8_feature_bits :
    ((RawFeatureVector.empty.setBit 0).setBit 9).serializeSize = 2 ∧
    ((RawFeatureVector.empty.setBit 0).setBit 9).encodeBytes = [2, 1] ∧
    RawFeatureVector.decodeBytes [2, 1] = (RawFeatureVector.empty.setBit 0).setBit 9 ∧
    ∀ i : Nat, (RawFeatureVector.decodeBytes [2, 1]).isSet i = decide (i = 0 ∨ i = 9) := by
  refine ⟨by decide, by decide, by decide, ?_⟩
  intro i
  show Nat.testBit 513 i = decide (i = 0 ∨ i = 9)
  by_cases hi : i < 10
  · interval_cases i <;> decide
  · have h2i : (2 : Nat) ^ 10 ≤ 2 ^ i := Nat.pow_le_pow_right (by norm_num) (by omega)
    have h513 : (513 : Nat) < 2 ^ i := lt_of_lt_of_le (by norm_num) h2i
    rw [Nat.testBit_eq_false_of_lt h513]
    have hno : ¬(i = 0 ∨ i = 9) := by omega
    simp [hno]

/-- Claim C9: for in-range coordinates, unpacking the packed short channel
id restores them exactly, and the numeric order of packed identifiers
coincides with the lexicographic order of (height, tx index, position). -/
theorem claim9_scid_pack_unpack (h t o h2 t2 o2 : Nat)
    (hh : h < 2 ^ 24) (ht : t < 2 ^ 24) (ho : o < 2 ^ 16)
    (hh2 : h2 < 2 ^ 24) (ht2 : t2 < 2 ^ 24) (ho2 : o2 < 2 ^ 16) :
    NewShortChanIDFromInt (ShortChannelID.ToUint64 ⟨h, t, o⟩) = ⟨h, t, o⟩ ∧
    (ShortChannelID.ToUint64 ⟨h, t, o⟩ < ShortChannelID.ToUint64 ⟨h2, t2, o2⟩ ↔
      (h < h2 ∨ (h = h2 ∧ (t < t2 ∨ (t = t2 ∧ o < o2))))) := by
  refine ⟨NewShortChanIDFromInt_ToUint64 ⟨h, t, o⟩ hh ht ho, ?_⟩
  simp only [ShortChannelID.ToUint64]
  omega

/-- Witness for C9 at concrete in-range coordinates. -/
theorem claim9_witness :
    NewShortChanIDFromInt (ShortChannelID.ToUint64 ⟨1, 2, 3⟩) = ⟨1, 2, 3⟩ ∧
    (ShortChannelID.ToUint64 ⟨1, 2, 3⟩ < ShortChannelID.ToUint64 ⟨1, 2, 4⟩ ↔
      (1 < 1 ∨ (1 = 1 ∧ (2 < 2 ∨ (2 = 2 ∧ 3 < 4))))) :=
  claim9_scid_pack_unpack 1 2 3 1 2 4 (by decide) (by decide) (by decide)
    (by decide) (by decide) (by decide)

/-- Claim C10: the persistence codec's outpoint serialization round-trips
for every 32-byte hash and every 32-bit index with no 16-bit bound:
`writeOutpoint` always succeeds, emits exactly `outPointSize` = 36 bytes
(32-byte hash then 4-byte index), and `readOutpoint` restores hash and
index exactly. -/
theorem claim10_outpoint_roundtrip (hash : BytesN 32) (index : Nat)
    (h : index < 2 ^ 32) (rest : List Byte) :
    (writeOutpoint hash index).length = outPointSize ∧
    readOutpoint (writeOutpoint hash index ++ rest) = .ok ((hash, index), rest) := by
  constructor
  · show (hash.val ++ beBytes index 4).length = outPointSize
    rw [List.length_append, hash.property, beBytes_length]
    rfl
  · rw [writeOutpoint, readOutpoint, List.append_assoc, readBytesN_append]
    simp only [exceptOkBind]
    rw [readBeUint_append 4 index (show index < 256 ^ 4 by omega)]
    rfl

/-- Witness for C10 at the extreme index `0xFFFFFFFF`, which the wire
codec's `WriteElement` rejects but the on-disk codec round-trips. -/
theorem claim10_witness :
    0xFFFFFFFF < 2 ^ 32 ∧
    ((writeOutpoint ⟨List.replicate 32 0, by simp⟩ 0xFFFFFFFF).length = outPointSize ∧
      readOutpoint (writeOutpoint ⟨List.replicate 32 0, by simp⟩ 0xFFFFFFFF ++ [])
        = .ok ((⟨List.replicate 32 0, by simp⟩, 0xFFFFFFFF), [])) :=
  ⟨by decide, claim10_outpoint_roundtrip ⟨List.replicate 32 0, by simp⟩ 0xFFFFFFFF (by decide) []⟩

/-- Claim C1: for every message variant in the catalogue and every validly
constructed instance of that variant (arbitrary feature vectors including
the empty one, arbitrary extension data, arbitrary address mixes), reading
back a successfully written message yields a deeply equal value. -/
theorem claim1_message_roundtrip (s : MsgSchema) (m : WireMessage) (bs : List Byte)
    (hcat : lookupSchema msgCatalogue s.typeCode = some s)
    (hwf : wfMessage s m = true)
    (henc : WriteMessage s m = .ok bs) :
    ReadMessage msgCatalogue bs = .ok m :=
  ReadMessage_WriteMessage msgCatalogue s m bs hcat hwf henc

/-- Witness for C1: a channel-reestablish instance (type code 136)
carrying the optional last-commit-secret and unrevoked-commit-point pair,
whose presence the decoder infers from the remaining bytes. -/
theorem claim1_witness :
    lookupSchema msgCatalogue 136 = some c1Schema ∧
    wfMessage c1Schema c1Msg = true ∧
    WriteMessage c1Schema c1Msg = .ok c1Bytes ∧
    ReadMessage msgCatalogue c1Bytes = .ok c1Msg :=
  ⟨by decide, by decide, by decide,
    claim1_message_roundtrip c1Schema c1Msg c1Bytes (by decide) (by decide) (by decide)⟩

/-- Claim C2: every successfully written message satisfies the payload
bound (the encoded length minus the 2-byte type code is at most the
variant's declared maximum) and carries its full, untruncated payload; a
message whose encoding would exceed the maximum fails at write time with
`PayloadTooLarge` instead of being truncated. -/
theorem claim2_payload_bound (s : MsgSchema) (m : WireMessage) :
    (∀ bs, WriteMessage s m = .ok bs →
      bs.length - 2 ≤ s.maxPayload ∧
      ∃ body, encodeFields m.fields = .ok body ∧
        bs = beBytes m.typeCode 2 ++ (body ++ (encodeTailPair m.tailPair ++ m.extra))) ∧
    (∀ body, encodeFields m.fields = .ok body →
      s.maxPayload < (body ++ (encodeTailPair m.tailPair ++ m.extra)).length →
      WriteMessage s m = .error .payloadTooLarge) := by
  constructor
  · intro bs hbs
    rw [WriteMessage] at hbs
    cases hE : encodeFields m.fields with
    | error c => rw [hE] at hbs; exact Except.noConfusion hbs
    | ok body =>
      rw [hE] at hbs
      simp only [exceptOkBind] at hbs
      by_cases hlen : s.maxPayload < (body ++ (encodeTailPair m.tailPair ++ m.extra)).length
      · rw [if_pos hlen] at hbs; exact Except.noConfusion hbs
      · rw [if_neg hlen] at hbs
        obtain rfl : bs = beBytes m.typeCode 2 ++ (body ++ (encodeTailPair m.tailPair ++ m.extra)) :=
          (Except.ok.inj hbs).symm
        refine ⟨?_, body, rfl, rfl⟩
        rw [List.length_append, beBytes_length]
        omega
  · intro body hbody hlen
    rw [WriteMessage, hbody]
    simp only [exceptOkBind]
    rw [if_pos hlen]

/-- Witness for C2: both halves at concrete inputs — a ping whose 4-byte
encoding is within its bound, and a variant with a declared maximum of 0
bytes whose 1-byte payload is rejected at write time. -/
theorem claim2_witness :
    (([0, 18, 0, 0, 0] : List Byte).length - 2 ≤ 65535 ∧
      ∃ body, encodeFields [FieldVal.uint 2 0, FieldVal.varBytes []] = .ok body ∧
        ([0, 18, 0, 0, 0] : List Byte)
          = beBytes 18 2 ++ (body ++ (encodeTailPair none ++ []))) ∧
    WriteMessage ⟨17, [], false, 0, false⟩ ⟨17, [], [170], none⟩
      = .error .payloadTooLarge :=
  ⟨(claim2_payload_bound ⟨18, [.uint 2, .varBytes 65535], false, 65535, false⟩
      ⟨18, [.uint 2 0, .varBytes []], [], none⟩).1 [0, 18, 0, 0, 0] (by decide),
    (claim2_payload_bound ⟨17, [], false, 0, false⟩ ⟨17, [], [170], none⟩).2
      [] (by decide) (by decide)⟩

/-- Claim C6: the persistence codec's element writer and reader are total
over the closed set of supported kinds (they are total functions of the
model, so neither panics) and fail with the `UnsupportedElementType` error
exactly for an element or destination outside that set: the `default`
cases return the error without writing anything, and no supported kind
ever produces that error. -/
theorem claim6_closed_world :
    (writeElement .unsupported = .error .unsupportedElementType ∧
      ∀ bs, readElement .unsupported bs = .error .unsupportedElementType) ∧
    (∀ e, e ≠ DbElement.unsupported →
      writeElement e ≠ .error .unsupportedElementType) ∧
    (∀ p bs, p ≠ DbPtr.unsupported →
      readElement p bs ≠ .error .unsupportedElementType) := by
  refine ⟨⟨rfl, fun bs => rfl⟩, ?_, ?_⟩
  · intro e he
    cases e with
    | lnMsg m =>
      rw [writeElement]
      cases hls : lookupSchema msgCatalogue m.typeCode with
      | none => simp
      | some s => exact WriteMessage_ne_unsupported s m
    | unsupported => exact absurd rfl he
    | byteSlice b => simp [writeElement]
    | _ => simp [writeElement]
  · intro p bs hp
    cases p with
    | channelType =>
      rw [readElement]
      refine bind_ne_error (readBeUint_ne_unsupported 1 bs) ?_
      rintro ⟨n, rest⟩; simp
    | hash =>
      rw [readElement]
      refine bind_ne_error (readBytesN_ne_unsupported 32 bs) ?_
      rintro ⟨h, rest⟩; simp
    | outPoint =>
      rw [readElement]
      refine bind_ne_error (readOutpoint_ne_unsupported bs) ?_
      rintro ⟨⟨h, i⟩, rest⟩; simp
    | shortChanID =>
      rw [readElement]
      refine bind_ne_error (readBeUint_ne_unsupported 8 bs) ?_
      rintro ⟨u, rest⟩; simp
    | uint64 =>
      rw [readElement]
      refine bind_ne_error (readBeUint_ne_unsupported 8 bs) ?_
      rintro ⟨v, rest⟩; simp
    | uint32 =>
      rw [readElement]
      refine bind_ne_error (readBeUint_ne_unsupported 4 bs) ?_
      rintro ⟨v, rest⟩; simp
    | int32 =>
      rw [readElement]
      refine bind_ne_error (readBeUint_ne_unsupported 4 bs) ?_
      rintro ⟨v, rest⟩; simp
    | uint16 =>
      rw [readElement]
      refine bind_ne_error (readBeUint_ne_unsupported 2 bs) ?_
      rintro ⟨v, rest⟩; simp
    | boolean =>
      rw [readElement]
      refine bind_ne_error (readBeUint_ne_unsupported 1 bs) ?_
      rintro ⟨v, rest⟩; simp
    | amount =>
      rw [readElement]
      refine bind_ne_error (readBeUint_ne_unsupported 8 bs) ?_
      rintro ⟨v, rest⟩; simp
    | milliSatoshi =>
      rw [readElement]
      refine bind_ne_error (readBeUint_ne_unsupported 8 bs) ?_
      rintro ⟨v, rest⟩; simp
    | pubKey =>
      rw [readElement]
      refine bind_ne_error (readBytesN_ne_unsupported 33 bs) ?_
      rintro ⟨b, rest⟩
      dsimp only
      split <;> simp
    | producer =>
      rw [readElement]
      refine bind_ne_error (readBytesN_ne_unsupported 32 bs) ?_
      rintro ⟨root, rest⟩; simp
    | store => rw [readElement]; simp
    | msgTx => rw [readElement]; simp
    | bytes32 =>
      rw [readElement]
      refine bind_ne_error (readBytesN_ne_unsupported 32 bs) ?_
      rintro ⟨b, rest⟩; simp
    | byteSlice =>
      rw [readElement]
      refine bind_ne_error (readVarInt_ne_unsupported bs) ?_
      rintro ⟨n, rest⟩
      dsimp only
      split
      · simp
      · refine bind_ne_error (readBytesN_ne_unsupported n rest) ?_
        rintro ⟨v, rest2⟩; simp
    | lnMsg =>
      rw [readElement]
      refine bind_ne_error (ReadMessage_ne_unsupported msgCatalogue bs) ?_
      intro m; simp
    | closureType =>
      rw [readElement]
      refine bind_ne_error (readBeUint_ne_unsupported 1 bs) ?_
      rintro ⟨n, rest⟩; simp
    | fundingFlag =>
      rw [readElement]
      refine bind_ne_error (readBeUint_ne_unsupported 1 bs) ?_
      rintro ⟨n, rest⟩; simp
    | unsupported => exact absurd rfl hp

/-- Witness for C6 at a concrete supported element and destination. -/
theorem claim6_witness :
    writeElement (.uint64 7) ≠ .error .unsupportedElementType ∧
    readElement .uint64 [0, 0, 0, 0, 0, 0, 0, 7] ≠ .error .unsupportedElementType :=
  ⟨(claim6_closed_world).2.1 (.uint64 7) (by decide),
    (claim6_closed_world).2.2 .uint64 [0, 0, 0, 0, 0, 0, 0, 7] (by decide)⟩

/-- Counterexample to claim C4 as stated: `c4Stream` decodes as a
channel announcement (its trailing byte `0xAA` is stored verbatim in
`ExtraOpaqueData`), but re-encoding the decoded message does not reproduce
the original byte stream, because the stream carries the empty feature
vector at a padded one-byte length while the encoder always emits the
minimal length 0 (§4.2); the re-encoded stream is one byte shorter. -/
theorem claim4_counterexample :
    ReadMessage msgCatalogue c4Stream = .ok c4Msg ∧
    WriteMessage chanAnnSchema c4Msg = .ok c4Reencoded ∧
    c4Reencoded ≠ c4Stream := by
  refine ⟨by decide, by decide, by decide⟩

/-- Claim C4 (amended): for every byte stream that decodes as a
channel announcement and whose known-fields region is encoder-canonical
(in particular, whose feature-vector field is minimally encoded), decoding
stores the bytes trailing the known fields verbatim in `ExtraOpaqueData`,
and re-encoding the decoded message reproduces the original byte stream
exactly, including the trailing bytes. -/
theorem claim4_extra_data_roundtrip (vals : List FieldVal) (extra body : List Byte)
    (hwf : wfFields chanAnnSchema.fieldTys vals = true)
    (henc : encodeFields vals = .ok body)
    (hlen : (body ++ extra).length ≤ chanAnnSchema.maxPayload) :
    WriteMessage chanAnnSchema ⟨256, vals, extra, none⟩
        = .ok (beBytes 256 2 ++ (body ++ extra)) ∧
    ReadMessage msgCatalogue (beBytes 256 2 ++ (body ++ extra))
        = .ok ⟨256, vals, extra, none⟩ := by
  have hW : WriteMessage chanAnnSchema ⟨256, vals, extra, none⟩
      = .ok (beBytes 256 2 ++ (body ++ extra)) := by
    rw [WriteMessage]
    show (encodeFields vals >>= fun body2 =>
      if chanAnnSchema.maxPayload < (body2 ++ (encodeTailPair none ++ extra)).length
      then Except.error CodecErr.payloadTooLarge
      else Except.ok (beBytes 256 2 ++ (body2 ++ (encodeTailPair none ++ extra)))) = _
    simp only [encodeTailPair, List.nil_append]
    rw [henc]
    simp only [exceptOkBind]
    rw [if_neg (by omega)]
  refine ⟨hW, ?_⟩
  refine ReadMessage_WriteMessage msgCatalogue chanAnnSchema ⟨256, vals, extra, none⟩ _ ?_ ?_ hW
  · decide
  · rw [wfMessage]
    show (true && true && wfFields chanAnnSchema.fieldTys vals
      && (chanAnnSchema.hasExtra || extra.isEmpty)
      && (chanAnnSchema.optTailPair || true)
      && (!chanAnnSchema.optTailPair || !true || extra.isEmpty)) = true
    rw [hwf]
    rfl

/-- Witness for C4 (amended) at the concrete counterexample message: its
canonical encoding decodes back to it, trailing byte included. -/
theorem claim4_witness :
    wfFields chanAnnSchema.fieldTys c4Msg.fields = true ∧
    WriteMessage chanAnnSchema ⟨256, c4Msg.fields, [170], none⟩ = .ok c4Reencoded ∧
    ReadMessage msgCatalogue c4Reencoded = .ok ⟨256, c4Msg.fields, [170], none⟩ := by
  refine ⟨by decide, ?_⟩
  have h := claim4_extra_data_roundtrip c4Msg.fields [170]
    (List.replicate 256 0 ++ ([0, 0] ++ List.replicate 172 0))
    (by decide) (by decide) (by decide)
  obtain ⟨h1, h2⟩ := h
  constructor
  · rw [h1]; decide
  · rw [show c4Reencoded
        = beBytes 256 2 ++ ((List.replicate 256 0 ++ ([0, 0] ++ List.replicate 172 0)) ++ [170])
      by decide]
    rw [h2]
